import Mathlib

/-!
Shallow embedding of the per-connection I/O engine of the gnet fork
(`connection_unix.go` and the Linux scatter/gather adapter), together with
proofs of the specified properties.

Bytes are modelled as `Nat`, byte slices as `List Nat`.  Go's `int` is
modelled as `Int` where its sign matters.  System calls are modelled by an
oracle argument carrying the kernel's answer; each function returns, besides
its Go results, the updated connection state and a trace of the externally
visible events it performed (hooks, syscalls, poller modifications, close).
-/

namespace Gnet

/-- Linux errno for EAGAIN. -/
def EAGAIN : Nat := 11

/-- Outcome of a single `unix.Write` call, as decided by the kernel:
either `err == nil` with `n` bytes written, or a non-nil errno. -/
inductive WriteOutcome where
  | wrote (n : Nat)
  | fail (errno : Nat)
  deriving DecidableEq, Repr

/-- Errors surfaced by the connection operations: a codec `Encode` error,
a raw errno (as `conn.open` returns it), or an `os.NewSyscallError`-wrapped
errno (as the write path passes to `loopCloseConn`). -/
inductive GoError where
  | encode (msg : String)
  | errno (e : Nat)
  | syscall (op : String) (e : Nat)
  deriving DecidableEq, Repr

/-- Externally visible events of a connection operation, in order. -/
inductive Ev where
  | preWrite
  | afterWrite
  | sysWrite (buf : List Nat) (out : WriteOutcome)
  | modReadWrite
  | close (cause : Option GoError)
  deriving DecidableEq, Repr

/-- Poller interest mask for a registered fd. -/
inductive PollInterest where
  | readOnly
  | readWrite
  deriving DecidableEq, Repr

/-! ### Ring buffer (inbound)

`pkg/ringbuffer` is not among the given source files; it is modelled from the
spec (§4.2).  A peek returns up to two contiguous slices `(head, tail)`,
`tail` being Go `nil` when the data does not wrap; we keep that shape so that
`conn.Read`/`conn.ReadN`, which branch on `tail == nil`, can be translated
faithfully. -/

/-- A ring buffer, abstracted to its readable content: the contiguous part
from the read index (`head`) and, when the content wraps, the wrapped part
(`tail`; `none` models a Go `nil` tail). -/
structure RingBuffer where
  head : List Nat
  tail : Option (List Nat)
  deriving DecidableEq, Repr

namespace RingBuffer

/-- All buffered bytes in FIFO order. -/
def contents (rb : RingBuffer) : List Nat :=
  rb.head ++ rb.tail.getD []

/-- Modelled from the spec: `Length()` — number of buffered bytes. -/
def Length (rb : RingBuffer) : Nat :=
  rb.contents.length

/-- Modelled from the spec: `PeekAll()` returns the two contiguous slices
covering the whole content, without mutating state. -/
def PeekAll (rb : RingBuffer) : List Nat × Option (List Nat) :=
  (rb.head, rb.tail)

/-- Modelled from the spec: `Peek(n)` returns up to `n` bytes as two
contiguous slices; if `n ≤ 0` or `n > length` it returns all available. -/
def Peek (rb : RingBuffer) (n : Int) : List Nat × Option (List Nat) :=
  if n ≤ 0 ∨ (rb.Length : Int) < n then rb.PeekAll
  else if n.toNat ≤ rb.head.length then (rb.head.take n.toNat, none)
  else (rb.head, some ((rb.tail.getD []).take (n.toNat - rb.head.length)))

/-- Modelled from the spec: `Discard(n)` advances the read index by
`min(n, length)`.  A non-positive `n` discards nothing: lengths are
non-negative, so no bytes can correspond to a negative advance. -/
def Discard (rb : RingBuffer) (n : Int) : RingBuffer :=
  let k := (min n (rb.Length : Int)).toNat
  if k ≤ rb.head.length then
    { head := rb.head.drop k, tail := if k = rb.Length then none else rb.tail }
  else
    { head := (rb.tail.getD []).drop (k - rb.head.length), tail := none }

/-- Modelled from the spec: `ByteBuffer()` — a linear copy of the whole
content, used by `conn.Read` to initialise the transit buffer. -/
def byteBuffer (rb : RingBuffer) : List Nat :=
  rb.contents

end RingBuffer

/-! ### Mixed outbound buffer

`pkg/mixedbuffer` is not among the given source files; it is modelled from
the spec (§4.3): a FIFO of bytes where `Write` appends preserving global
order and `IsEmpty` holds iff nothing is buffered. -/

/-- Modelled from the spec: the mixed outbound buffer, abstracted to its
buffered bytes in FIFO order. -/
abbrev MixedBuffer := List Nat

namespace MixedBuffer

/-- Modelled from the spec: `Write(bytes)` appends, preserving FIFO order. -/
def Write (b : MixedBuffer) (bytes : List Nat) : MixedBuffer :=
  b ++ bytes

/-- Modelled from the spec: `IsEmpty()`. -/
def IsEmpty (b : MixedBuffer) : Bool :=
  b.isEmpty

end MixedBuffer

/-! ### Connection state -/

/-- The connection state, translated from `type conn struct` in
`connection_unix.go`.  Fields with no bearing on the verified operations
(addresses, user context, socket address) are omitted; the codec is carried
as its `Encode` function; `closed`/`closeErr` record the effect of
`loopCloseConn`; `interest` is the poller interest mask held by the
connection's poll attachment. -/
structure Conn where
  fd : Nat
  opened : Bool
  inboundBuffer : RingBuffer
  transitBuffer : Option (List Nat)
  outboundBuffer : MixedBuffer
  interest : PollInterest
  closed : Bool
  closeErr : Option GoError
  encode : List Nat → Except String (List Nat)

namespace Conn

/-- Modelled from the spec: `loopCloseConn` — the loop closes the connection
with the given cause, firing `OnClose` with it; recorded here as the `close`
event and the `closed`/`closeErr` fields.  Buffer pooling and fd teardown
are elided; the call returns `nil` once the close is performed. -/
def loopCloseConn (c : Conn) (cause : Option GoError) :
    Conn × List Ev × Option GoError :=
  ({ c with closed := true, opened := false, closeErr := cause },
   [Ev.close cause], none)

/-- Translated from `conn.open` in `connection_unix.go`: write the
`OnOpened` bytes directly; on `EAGAIN` buffer them all, on a partial write
buffer the remainder; never touches the poller.  (The Go method is named
`open`, a keyword in Lean.) -/
def openWrite (c : Conn) (buf : List Nat) (sys : WriteOutcome) :
    Conn × List Ev × Option GoError :=
  let evs := [Ev.preWrite, Ev.sysWrite buf sys]
  match sys with
  | .fail e =>
    if e = EAGAIN then
      ({ c with outboundBuffer := c.outboundBuffer.Write buf },
       evs ++ [Ev.afterWrite], none)
    else
      (c, evs ++ [Ev.afterWrite], some (GoError.errno e))
  | .wrote n =>
    if n < buf.length then
      ({ c with outboundBuffer := c.outboundBuffer.Write (buf.drop n) },
       evs ++ [Ev.afterWrite], none)
    else
      (c, evs ++ [Ev.afterWrite], none)

/-- Modelled from the spec: the loop-side open step wrapping `conn.open` —
it marks the connection opened, writes the bytes returned by `OnOpened`
(when any), and then registers the fd for write readiness iff the outbound
buffer is non-empty ("If the outbound buffer is non-empty, the fd is
registered for write readiness; if empty, the fd is registered for read
readiness only"). -/
def loopOpen (c : Conn) (out : Option (List Nat)) (sys : WriteOutcome) :
    Conn × List Ev × Option GoError :=
  let c := { c with opened := true }
  match out with
  | none => (c, [], none)
  | some buf =>
    let (c', evs, e) := c.openWrite buf sys
    if c'.outboundBuffer.IsEmpty then (c', evs, e)
    else ({ c' with interest := PollInterest.readWrite }, evs, e)

/-- Translated from `conn.write` in `connection_unix.go`: encode, then
append to a non-empty outbound buffer, otherwise try a direct
`unix.Write`; on `EAGAIN` buffer the packet and switch the poller to
read+write, on a partial write buffer the remainder and switch the poller,
on any other error close the connection with the wrapped cause. -/
def write (c : Conn) (buf : List Nat) (sys : WriteOutcome) :
    Conn × List Ev × Option GoError :=
  match c.encode buf with
  | .error msg => (c, [Ev.afterWrite], some (GoError.encode msg))
  | .ok packet =>
    if ¬ c.outboundBuffer.IsEmpty then
      ({ c with outboundBuffer := c.outboundBuffer.Write packet },
       [Ev.preWrite, Ev.afterWrite], none)
    else
      let evs := [Ev.preWrite, Ev.sysWrite packet sys]
      match sys with
      | .fail e =>
        if e = EAGAIN then
          ({ c with outboundBuffer := c.outboundBuffer.Write packet,
                    interest := PollInterest.readWrite },
           evs ++ [Ev.modReadWrite, Ev.afterWrite], none)
        else
          let (c', evs', r) := c.loopCloseConn (some (GoError.syscall "write" e))
          (c', evs ++ evs' ++ [Ev.afterWrite], r)
      | .wrote n =>
        if n < packet.length then
          ({ c with outboundBuffer := c.outboundBuffer.Write (packet.drop n),
                    interest := PollInterest.readWrite },
           evs ++ [Ev.modReadWrite, Ev.afterWrite], none)
        else
          (c, evs ++ [Ev.afterWrite], none)

/-- Translated from `conn.asyncWrite`: the task body submitted by
`AsyncWrite`; a connection that is not opened returns `nil` at once. -/
def asyncWrite (c : Conn) (buf : List Nat) (sys : WriteOutcome) :
    Conn × List Ev × Option GoError :=
  if ¬ c.opened then (c, [], none)
  else c.write buf sys

/-- Translated from `conn.Read`: peek everything; when the data wraps,
linearise it through the transit buffer (allocating or resetting it). -/
def Read (c : Conn) : List Nat × Conn :=
  let (head, tail) := c.inboundBuffer.PeekAll
  match tail with
  | none => (head, c)
  | some ts =>
    match c.transitBuffer with
    | none =>
      let tb := c.inboundBuffer.byteBuffer
      (tb, { c with transitBuffer := some tb })
    | some _ =>
      let tb := head ++ ts
      (tb, { c with transitBuffer := some tb })

/-- Translated from `conn.ReadN`: when `n` is non-positive or at least the
buffered length, fall back to `Read`; otherwise peek exactly `n` bytes,
linearising through the transit buffer when they wrap. -/
def ReadN (c : Conn) (n : Int) : (Int × List Nat) × Conn :=
  let inBufferLen : Int := c.inboundBuffer.Length
  if inBufferLen ≤ n ∨ n ≤ 0 then
    let (b, c') := c.Read
    ((inBufferLen, b), c')
  else
    let (head, tail) := c.inboundBuffer.Peek n
    match tail with
    | none => ((n, head), c)
    | some ts =>
      let tb := head ++ ts
      ((n, tb), { c with transitBuffer := some tb })

/-- Translated from `conn.ShiftN`: discard `n` from the inbound buffer,
reset the transit buffer when present, and return `n`. -/
def ShiftN (c : Conn) (n : Int) : Int × Conn :=
  let ib := c.inboundBuffer.Discard n
  let tb : Option (List Nat) :=
    match c.transitBuffer with
    | none => none
    | some _ => some []
  (n, { c with inboundBuffer := ib, transitBuffer := tb })

/-- Translated from `conn.BufferLength`. -/
def BufferLength (c : Conn) : Nat :=
  c.inboundBuffer.Length

end Conn

/-! ### Scatter/gather adapter (`SendMsgs`, Linux) -/

/-- The `MSG_ZEROCOPY` flag on Linux. -/
def MSG_ZEROCOPY : Nat := 67108864

/-- What an iovec's base pointer designates: the bytes of a source slice,
or the shared `_zero` word used for empty slices. -/
inductive IovBase where
  | bytes (bs : List Nat)
  | zeroWord
  deriving DecidableEq, Repr

/-- A `unix.Iovec`: base pointer and length. -/
structure Iovec where
  base : IovBase
  len : Nat
  deriving DecidableEq, Repr

/-- Translated from the iovec-building loop of `SendMsgs`: length set to the
slice's length; base points at the slice's first byte, or at `_zero` when
the slice is empty. -/
def mkIovec (iov : List Nat) : Iovec :=
  { len := iov.length,
    base := if iov.length > 0 then IovBase.bytes iov else IovBase.zeroWord }

/-- One recorded `sendmsg` syscall: fd, the iovec array of the msghdr, and
the flags argument. -/
structure SendCall where
  fd : Nat
  iov : List Iovec
  flags : Nat
  deriving DecidableEq, Repr

/-- Result of `SendMsgs`: a runtime panic (index out of range), or the Go
return pair `(n, err)` with `err` an errno when non-nil. -/
inductive SendMsgsRet where
  | panicked
  | ret (n : Nat) (err : Option Nat)
  deriving DecidableEq, Repr

/-- Translated from `SendMsgs` in the io adapter: build one iovec per input
slice, take the address of `iovecs[0]` (a panic when the slice is empty),
and issue a single `SYS_SENDMSG` with `MSG_ZEROCOPY`.  The kernel's answer
is the oracle pair `(r, errno)`; `errno ≠ 0` yields `(0, errno)`, else
`(r, nil)`. -/
def SendMsgs (fd : Nat) (iovs : List (List Nat)) (sys : Nat × Nat) :
    SendMsgsRet × List SendCall :=
  let iovecs := iovs.map mkIovec
  match iovecs with
  | [] => (SendMsgsRet.panicked, [])
  | _ :: _ =>
    let call : SendCall := { fd := fd, iov := iovecs, flags := MSG_ZEROCOPY }
    let (r, errno) := sys
    if errno ≠ 0 then (SendMsgsRet.ret 0 (some errno), [call])
    else (SendMsgsRet.ret r none, [call])

/-- The write-interest invariant of the spec: the poller interest mask for
the connection includes Write iff the outbound buffer is non-empty. -/
def WriteInterestInv (c : Conn) : Prop :=
  c.interest = PollInterest.readWrite ↔ c.outboundBuffer ≠ []

/-! ### Concrete connections used by the witnesses -/

/-- An identity codec, as the tests of the repository use. -/
def idCodec : List Nat → Except String (List Nat) :=
  fun bs => Except.ok bs

/-- A codec whose `Encode` always fails. -/
def failCodec : List Nat → Except String (List Nat) :=
  fun _ => Except.error "boom"

/-- An opened connection with a wrapped inbound buffer `[1,2]⧺[3]`, no
transit buffer and an empty outbound buffer. -/
def connR : Conn :=
  { fd := 3, opened := true,
    inboundBuffer := { head := [1, 2], tail := some [3] },
    transitBuffer := none, outboundBuffer := [],
    interest := PollInterest.readOnly, closed := false, closeErr := none,
    encode := idCodec }

/-- A connection like `connR` but with a transit buffer present. -/
def connT : Conn :=
  { connR with transitBuffer := some [1, 2, 3] }

/-- A connection whose codec always fails. -/
def connE : Conn :=
  { connR with encode := failCodec }

/-- A connection that was never opened. -/
def connU : Conn :=
  { connR with opened := false }

/-! ### Claim theorems -/

/-- C3: `conn.write` first encodes; on an `Encode` error it returns that
error with the connection state untouched — no syscall, no buffering, no
poller modification (only the deferred `AfterWrite` hook fires). -/
theorem write_encode_error_atomic (c : Conn) (buf : List Nat)
    (sys : WriteOutcome) (msg : String) (h : c.encode buf = Except.error msg) :
    c.write buf sys = (c, [Ev.afterWrite], some (GoError.encode msg)) := by
  simp only [Conn.write, h]

/-- Witness for C3 at a concrete connection and buffer. -/
theorem write_encode_error_atomic_witness :
    connE.write [1, 2] (WriteOutcome.wrote 0) =
      (connE, [Ev.afterWrite], some (GoError.encode "boom")) :=
  write_encode_error_atomic connE [1, 2] (WriteOutcome.wrote 0) "boom" rfl

/-- C8: the task body of `AsyncWrite` on a connection whose `opened` flag is
false returns `nil` immediately: no event fires, nothing is encoded,
written or buffered, and the state is unchanged. -/
theorem asyncWrite_not_opened (c : Conn) (buf : List Nat)
    (sys : WriteOutcome) (h : c.opened = false) :
    c.asyncWrite buf sys = (c, [], none) := by
  simp only [Conn.asyncWrite, h]
  simp

/-- Witness for C8 at a concrete unopened connection. -/
theorem asyncWrite_not_opened_witness :
    connU.asyncWrite [9, 9] (WriteOutcome.wrote 0) = (connU, [], none) :=
  asyncWrite_not_opened connU [9, 9] (WriteOutcome.wrote 0) rfl

/-- C10: `conn.ShiftN(k)` returns `k` unconditionally, whatever the buffered
length, and resets the transit buffer whenever one is present. -/
theorem shiftN_returns_n (c : Conn) (k : Int) :
    (c.ShiftN k).1 = k ∧
    (∀ tb, c.transitBuffer = some tb → ((c.ShiftN k).2).transitBuffer = some []) := by
  refine ⟨rfl, ?_⟩
  intro tb h
  simp [Conn.ShiftN, h]

/-- Witness for C10: with 3 buffered bytes and a transit buffer present,
`ShiftN 5` still returns 5 (not the 3 bytes actually discarded) and the
transit buffer is reset. -/
theorem shiftN_returns_n_witness :
    (connT.ShiftN 5).1 = 5 ∧ ((connT.ShiftN 5).2).transitBuffer = some [] ∧
    connT.BufferLength = 3 ∧ ((connT.ShiftN 5).2).BufferLength = 0 :=
  ⟨(shiftN_returns_n connT 5).1,
   (shiftN_returns_n connT 5).2 [1, 2, 3] rfl,
   by decide, by decide⟩

/-- C9: `SendMsgs` with an empty iovec list panics (it takes the address of
element 0 of a zero-length slice); with a non-empty list that failure is
unreachable. -/
theorem sendMsgs_empty_panics :
    (∀ fd sys, (SendMsgs fd [] sys).1 = SendMsgsRet.panicked) ∧
    (∀ fd iovs sys, iovs ≠ [] → (SendMsgs fd iovs sys).1 ≠ SendMsgsRet.panicked) := by
  constructor
  · intro fd sys
    rfl
  · intro fd iovs sys h
    unfold SendMsgs
    cases hm : iovs.map mkIovec with
    | nil => exact absurd (List.map_eq_nil_iff.mp hm) h
    | cons a l =>
      by_cases he : sys.2 ≠ 0 <;> simp [he]

/-- Witness for C9: the concrete empty call panics, the concrete singleton
call does not. -/
theorem sendMsgs_empty_panics_witness :
    (SendMsgs 3 [] (0, 0)).1 = SendMsgsRet.panicked ∧
    (SendMsgs 3 [[1]] (0, 0)).1 ≠ SendMsgsRet.panicked :=
  ⟨sendMsgs_empty_panics.1 3 (0, 0),
   sendMsgs_empty_panics.2 3 [[1]] (0, 0) (by decide)⟩

/-- C7: for a non-empty `iovs`, `SendMsgs` issues exactly one `sendmsg`
syscall, whose iovec array has one entry per input slice, in order, each
covering its slice (length set to the slice length and base pointing at the
slice bytes when non-empty), with the `MSG_ZEROCOPY` flag; it returns the
kernel count on success and `(0, errno)` on failure. -/
theorem sendMsgs_single_syscall (fd : Nat) (iovs : List (List Nat))
    (r errno : Nat) (h : iovs ≠ []) :
    (SendMsgs fd iovs (r, errno)).2 =
      [{ fd := fd, iov := iovs.map mkIovec, flags := MSG_ZEROCOPY }] ∧
    (iovs.map mkIovec).length = iovs.length ∧
    (∀ iov ∈ iovs, (mkIovec iov).len = iov.length ∧
       (iov ≠ [] → (mkIovec iov).base = IovBase.bytes iov)) ∧
    (errno = 0 → (SendMsgs fd iovs (r, errno)).1 = SendMsgsRet.ret r none) ∧
    (errno ≠ 0 → (SendMsgs fd iovs (r, errno)).1 = SendMsgsRet.ret 0 (some errno)) := by
  have hcov : ∀ iov ∈ iovs, (mkIovec iov).len = iov.length ∧
      (iov ≠ [] → (mkIovec iov).base = IovBase.bytes iov) := by
    intro iov _
    refine ⟨rfl, fun hne => ?_⟩
    simp [mkIovec, List.length_pos.mpr hne]
  unfold SendMsgs
  cases hm : iovs.map mkIovec with
  | nil => exact absurd (List.map_eq_nil_iff.mp hm) h
  | cons a l =>
    have hlen : l.length + 1 = iovs.length := by
      have := congrArg List.length hm
      simpa [List.length_map] using this.symm
    by_cases he : errno = 0 <;>
      simp [he, hm, hlen, hcov] <;>
      exact hcov

/-- Witness for C7 on a concrete call carrying a non-empty and an empty
slice, with a successful kernel answer of 1 byte. -/
theorem sendMsgs_single_syscall_witness :
    (SendMsgs 3 [[7], []] (1, 0)).2 =
      [{ fd := 3, iov := [[7], []].map mkIovec, flags := MSG_ZEROCOPY }] ∧
    (SendMsgs 3 [[7], []] (1, 0)).1 = SendMsgsRet.ret 1 none := by
  have h := sendMsgs_single_syscall 3 [[7], []] 1 0 (by decide)
  exact ⟨h.1, h.2.2.2.1 rfl⟩

/-- C1: the synchronous write path.  With a successfully encoded packet:
when the outbound buffer is non-empty the packet is appended and no syscall
is attempted; when it is empty a direct write syscall is tried, and on
`EAGAIN` the whole packet — or, on a partial write of `n` bytes, the
remaining bytes — is appended to the outbound buffer and the poller
interest is changed to read+write. -/
theorem write_sync_path (c : Conn) (buf packet : List Nat) (sys : WriteOutcome)
    (henc : c.encode buf = Except.ok packet) :
    (¬ c.outboundBuffer.IsEmpty →
      c.write buf sys =
        ({ c with outboundBuffer := c.outboundBuffer.Write packet },
         [Ev.preWrite, Ev.afterWrite], none)) ∧
    (c.outboundBuffer.IsEmpty →
      Ev.sysWrite packet sys ∈ (c.write buf sys).2.1 ∧
      (sys = WriteOutcome.fail EAGAIN →
        c.write buf sys =
          ({ c with outboundBuffer := c.outboundBuffer.Write packet,
                    interest := PollInterest.readWrite },
           [Ev.preWrite, Ev.sysWrite packet sys, Ev.modReadWrite, Ev.afterWrite],
           none)) ∧
      (∀ n, sys = WriteOutcome.wrote n → n < packet.length →
        c.write buf sys =
          ({ c with outboundBuffer := c.outboundBuffer.Write (packet.drop n),
                    interest := PollInterest.readWrite },
           [Ev.preWrite, Ev.sysWrite packet sys, Ev.modReadWrite, Ev.afterWrite],
           none))) := by
  constructor
  · intro hne
    simp [Conn.write, henc, hne]
  · intro hemp
    refine ⟨?_, ?_, ?_⟩
    · simp only [Conn.write, henc, hemp, not_true_eq_false, if_false]
      cases sys with
      | fail e =>
        by_cases he : e = EAGAIN <;> simp [he, Conn.loopCloseConn]
      | wrote n =>
        by_cases hn : n < packet.length <;> simp [hn]
    · rintro rfl
      simp [Conn.write, henc, hemp, EAGAIN]
    · rintro n rfl hn
      simp [Conn.write, henc, hemp, hn]

/-- Witness for C1: both branches at concrete connections — a non-empty
outbound buffer absorbs the packet with no syscall; an empty one takes the
partial-write branch, buffering the leftover byte and arming write
interest. -/
theorem write_sync_path_witness :
    ({ connR with outboundBuffer := [5] } : Conn).write [1, 2] (WriteOutcome.wrote 1) =
      ({ connR with outboundBuffer := MixedBuffer.Write [5] [1, 2] },
       [Ev.preWrite, Ev.afterWrite], none) ∧
    connR.write [1, 2] (WriteOutcome.wrote 1) =
      ({ connR with outboundBuffer := MixedBuffer.Write [] [2],
                    interest := PollInterest.readWrite },
       [Ev.preWrite, Ev.sysWrite [1, 2] (WriteOutcome.wrote 1),
        Ev.modReadWrite, Ev.afterWrite], none) := by
  constructor
  · exact (write_sync_path { connR with outboundBuffer := [5] } [1, 2] [1, 2]
      (WriteOutcome.wrote 1) rfl).1 (by decide)
  · exact (write_sync_path connR [1, 2] [1, 2] (WriteOutcome.wrote 1) rfl).2
      (by decide) |>.2.2 1 rfl (by decide)

/-- C6: in the synchronous write path, a direct-write failure other than
`EAGAIN` closes the connection with the syscall-wrapped cause — delivered
to `OnClose` via the close event — and buffers nothing. -/
theorem write_error_closes (c : Conn) (buf packet : List Nat) (e : Nat)
    (henc : c.encode buf = Except.ok packet)
    (hemp : c.outboundBuffer.IsEmpty) (he : e ≠ EAGAIN) :
    c.write buf (WriteOutcome.fail e) =
      ({ c with closed := true, opened := false,
                closeErr := some (GoError.syscall "write" e) },
       [Ev.preWrite, Ev.sysWrite packet (WriteOutcome.fail e),
        Ev.close (some (GoError.syscall "write" e)), Ev.afterWrite],
       none) := by
  simp [Conn.write, henc, hemp, he, Conn.loopCloseConn]

/-- Witness for C6 at a concrete connection, with errno 32 (EPIPE). -/
theorem write_error_closes_witness :
    connR.write [1, 2] (WriteOutcome.fail 32) =
      ({ connR with closed := true, opened := false,
                    closeErr := some (GoError.syscall "write" 32) },
       [Ev.preWrite, Ev.sysWrite [1, 2] (WriteOutcome.fail 32),
        Ev.close (some (GoError.syscall "write" 32)), Ev.afterWrite],
       none) :=
  write_error_closes connR [1, 2] [1, 2] 32 rfl (by decide) (by decide)

/-! ### Inbound-buffer lemmas (for C4 and C5) -/

/-- Length bookkeeping of `Discard`: exactly `min(n, length)` bytes go,
clamped below at zero. -/
theorem RingBuffer.Length_Discard (rb : RingBuffer) (n : Int) :
    (rb.Discard n).Length = rb.Length - (min n (rb.Length : Int)).toNat := by
  have hmin : min n (rb.Length : Int) ≤ (rb.Length : Int) := min_le_right _ _
  have hkL : (min n (rb.Length : Int)).toNat ≤ rb.Length := by omega
  have hL : rb.Length = rb.head.length + (rb.tail.getD []).length := by
    simp [RingBuffer.Length, RingBuffer.contents]
  unfold RingBuffer.Discard
  simp only [RingBuffer.Length, RingBuffer.contents, List.length_append] at *
  split_ifs with h1 h2 <;>
    · dsimp only
      simp only [List.length_append, List.length_drop, Option.getD_none,
        List.length_nil]
      omega

/-- The bytes `Peek(n)` hands back, for `0 < n < length`: head and tail
concatenate to the first `n` buffered bytes. -/
theorem RingBuffer.Peek_take (rb : RingBuffer) (n : Int) (h0 : 0 < n)
    (hn : n < (rb.Length : Int)) :
    (rb.Peek n).1 ++ ((rb.Peek n).2.getD []) = rb.contents.take n.toNat := by
  unfold RingBuffer.Peek
  rw [if_neg (by push_neg; omega)]
  by_cases h2 : n.toNat ≤ rb.head.length
  · simp only [h2, if_true, if_pos, Option.getD_none, List.append_nil,
      RingBuffer.contents]
    rw [List.take_append_eq_append_take, Nat.sub_eq_zero_of_le h2,
      List.take_zero, List.append_nil]
  · simp only [h2, if_false, if_neg, not_false_iff, Option.getD_some,
      RingBuffer.contents]
    rw [List.take_append_eq_append_take,
      List.take_of_length_le (le_of_not_le h2)]

/-- `conn.Read` returns all buffered bytes and leaves the inbound buffer
untouched. -/
theorem Conn.Read_eq (c : Conn) :
    (c.Read).1 = c.inboundBuffer.contents ∧
    (c.Read).2.inboundBuffer = c.inboundBuffer := by
  unfold Conn.Read
  cases ht : c.inboundBuffer.tail with
  | none =>
    simp [RingBuffer.PeekAll, RingBuffer.contents, ht]
  | some ts =>
    cases htb : c.transitBuffer with
    | none =>
      simp [RingBuffer.PeekAll, RingBuffer.byteBuffer, RingBuffer.contents, ht, htb]
    | some tb =>
      simp [RingBuffer.PeekAll, RingBuffer.contents, ht, htb]

/-- C4 (amended): for every k ≥ 0 and every inbound-buffer state with prior
length L, `ShiftN(k)` decreases `BufferLength()` by exactly `min(k, L)`. -/
theorem shiftN_decreases_bufferLength (c : Conn) (k : Int) (hk : 0 ≤ k) :
    (c.BufferLength : Int) - (((c.ShiftN k).2).BufferLength : Int) =
      min k (c.BufferLength : Int) := by
  have h := RingBuffer.Length_Discard c.inboundBuffer k
  have hmin : min k (c.inboundBuffer.Length : Int) ≤ (c.inboundBuffer.Length : Int) :=
    min_le_right _ _
  simp only [Conn.ShiftN, Conn.BufferLength]
  omega

/-- Witness for C4 (amended) at k = 5 on a 3-byte buffer. -/
theorem shiftN_decreases_bufferLength_witness :
    (0 : Int) ≤ 5 ∧
    (connR.BufferLength : Int) - (((connR.ShiftN 5).2).BufferLength : Int) =
      min 5 (connR.BufferLength : Int) :=
  ⟨by decide, shiftN_decreases_bufferLength connR 5 (by decide)⟩

/-- Counterexample to C4 as stated, at k = -1: on a 3-byte buffer the
length decreases by 0, not by min(-1, 3) = -1. -/
theorem shiftN_decreases_bufferLength_cex :
    ¬ ((connR.BufferLength : Int) - (((connR.ShiftN (-1)).2).BufferLength : Int) =
        min (-1) (connR.BufferLength : Int)) := by
  decide

/-- C5: `ReadN(n)` leaves the inbound buffer untouched and returns
`(L, all L bytes)` when `n ≤ 0` or `n ≥ L` — with no error in the `n > L`
case — and `(n, the first n bytes in FIFO order)` when `0 < n < L`. -/
theorem readN_spec (c : Conn) (n : Int) :
    ((c.ReadN n).2).inboundBuffer = c.inboundBuffer ∧
    ((n ≤ 0 ∨ (c.BufferLength : Int) ≤ n) →
      (c.ReadN n).1 = ((c.BufferLength : Int), c.inboundBuffer.contents)) ∧
    ((0 < n ∧ n < (c.BufferLength : Int)) →
      (c.ReadN n).1 = (n, c.inboundBuffer.contents.take n.toNat)) := by
  by_cases hcond : (c.inboundBuffer.Length : Int) ≤ n ∨ n ≤ 0
  · have hr1 := (Conn.Read_eq c).1
    have hr2 := (Conn.Read_eq c).2
    refine ⟨?_, fun _ => ?_, fun hlt =>
      absurd hcond (by
        have hbl : c.BufferLength = c.inboundBuffer.Length := rfl
        omega)⟩
    · simp only [Conn.ReadN, if_pos hcond]
      exact hr2
    · simp only [Conn.ReadN, Conn.BufferLength, if_pos hcond]
      rw [hr1]
  · have h0 : 0 < n := by omega
    have hn : n < (c.inboundBuffer.Length : Int) := by omega
    have hp := RingBuffer.Peek_take c.inboundBuffer n h0 hn
    refine ⟨?_, fun hc =>
      absurd hc (by
        have hbl : c.BufferLength = c.inboundBuffer.Length := rfl
        omega), fun _ => ?_⟩
    · simp only [Conn.ReadN, if_neg hcond]
      cases ht : (c.inboundBuffer.Peek n).2 with
      | none => simp [ht]
      | some ts => simp [ht]
    · simp only [Conn.ReadN, if_neg hcond]
      cases ht : (c.inboundBuffer.Peek n).2 with
      | none =>
        rw [ht] at hp
        simp only [Option.getD_none, List.append_nil] at hp
        simp [ht, hp]
      | some ts =>
        rw [ht] at hp
        simp only [Option.getD_some] at hp
        simp [ht, hp]

/-- Witness for C5: on a wrapped 3-byte buffer, `ReadN 2` peeks the first
two bytes and `ReadN 5` peeks all three, neither consuming anything. -/
theorem readN_spec_witness :
    ((connR.ReadN 2).2).inboundBuffer = connR.inboundBuffer ∧
    (connR.ReadN 2).1 = (2, [1, 2]) ∧
    (connR.ReadN 5).1 = (3, [1, 2, 3]) := by
  refine ⟨(readN_spec connR 2).1, ?_, ?_⟩
  · have h := (readN_spec connR 2).2.2 (by decide)
    rw [h]
    rfl
  · have h := (readN_spec connR 5).2.1 (by decide)
    rw [h]
    rfl

/-- C2: the poller interest mask includes Write iff the outbound buffer is
non-empty, at every return to the event loop: `conn.write` preserves the
invariant on every path that leaves the connection alive (assuming the
kernel does not answer EAGAIN to a zero-length write), and the loop-side
open step — including an open-time write that hits EAGAIN or is partial —
establishes it from the fresh read-only, empty-outbound state. -/
theorem write_interest_invariant :
    (∀ (c : Conn) (buf : List Nat) (sys : WriteOutcome),
      WriteInterestInv c →
      (∀ packet, c.encode buf = Except.ok packet →
        sys = WriteOutcome.fail EAGAIN → packet ≠ []) →
      (c.write buf sys).1.closed = false →
      WriteInterestInv (c.write buf sys).1) ∧
    (∀ (c : Conn) (out : Option (List Nat)) (sys : WriteOutcome),
      c.outboundBuffer = [] → c.interest = PollInterest.readOnly →
      (sys = WriteOutcome.fail EAGAIN → out ≠ some []) →
      WriteInterestInv (c.loopOpen out sys).1) := by
  constructor
  · intro c buf sys hInv hsafe hclosed
    cases henc : c.encode buf with
    | error msg => simpa [Conn.write, henc] using hInv
    | ok packet =>
      by_cases hout : c.outboundBuffer.IsEmpty
      · have hnil : c.outboundBuffer = [] := by
          simpa [MixedBuffer.IsEmpty, List.isEmpty_iff] using hout
        cases sys with
        | wrote n =>
          by_cases hn : n < packet.length
          · have hpk : packet.drop n ≠ [] := by
              intro hd
              have := congrArg List.length hd
              simp at this
              omega
            simp [Conn.write, henc, hout, hn, WriteInterestInv,
              MixedBuffer.Write, MixedBuffer.IsEmpty, hnil, hpk]
          · simpa [Conn.write, henc, hout, hn] using hInv
        | fail e =>
          by_cases he : e = EAGAIN
          · have hpk : packet ≠ [] := hsafe packet henc (by rw [he])
            simp [Conn.write, henc, hout, he, WriteInterestInv,
              MixedBuffer.Write, MixedBuffer.IsEmpty, hnil, hpk]
          · rw [Conn.write] at hclosed
            simp [henc, hout, he, Conn.loopCloseConn] at hclosed
      · have hnil : c.outboundBuffer ≠ [] := by
          simpa [MixedBuffer.IsEmpty, List.isEmpty_iff] using hout
        have hrw : c.interest = PollInterest.readWrite := hInv.mpr hnil
        simp [Conn.write, henc, hout, WriteInterestInv, MixedBuffer.Write,
          hrw, hnil]
  · intro c out sys hemp hro hsafe
    cases out with
    | none => simp [Conn.loopOpen, WriteInterestInv, hemp, hro]
    | some buf =>
      cases sys with
      | wrote n =>
        by_cases hn : n < buf.length
        · have hpk : buf.drop n ≠ [] := by
            intro hd
            have := congrArg List.length hd
            simp at this
            omega
          simp [Conn.loopOpen, Conn.openWrite, WriteInterestInv,
            MixedBuffer.Write, MixedBuffer.IsEmpty, hemp, hro, hn, hpk,
            List.isEmpty_iff]
        · simp [Conn.loopOpen, Conn.openWrite, WriteInterestInv,
            MixedBuffer.IsEmpty, hemp, hro, hn, List.isEmpty_iff]
      | fail e =>
        by_cases he : e = EAGAIN
        · have hpk : buf ≠ [] := by
            intro hd
            exact hsafe (by rw [he]) (by rw [hd])
          simp [Conn.loopOpen, Conn.openWrite, WriteInterestInv,
            MixedBuffer.Write, MixedBuffer.IsEmpty, hemp, hro, he, hpk,
            List.isEmpty_iff]
        · simp [Conn.loopOpen, Conn.openWrite, WriteInterestInv,
            MixedBuffer.IsEmpty, hemp, hro, he, List.isEmpty_iff]

/-- Witness for C2: a partial direct write on an empty-outbound connection,
and an open-time EAGAIN write, both land in invariant-satisfying states. -/
theorem write_interest_invariant_witness :
    WriteInterestInv ((connR.write [1, 2] (WriteOutcome.wrote 1)).1) ∧
    WriteInterestInv ((connR.loopOpen (some [1, 2]) (WriteOutcome.fail EAGAIN)).1) :=
  ⟨write_interest_invariant.1 connR [1, 2] (WriteOutcome.wrote 1)
      (by unfold WriteInterestInv; decide)
      (fun _ _ h => absurd h (by decide))
      (by decide),
   write_interest_invariant.2 connR (some [1, 2]) (WriteOutcome.fail EAGAIN)
      rfl rfl (fun _ h => by cases h)⟩

end Gnet
